import Mathlib

/-!
Verification of the decentraland-core chain engine against its
natural-language specification.

The development shallowly embeds the JavaScript sources
(`src/lib/blockchain.js`, `src/lib/transaction/transaction.js`,
`src/lib/block/block.js`, `src/lib/block/blockheader.js`) into Lean:

* buffers are `List Nat` (byte lists), hashes on the engine level are their
  display hex `String`s, exactly as the engine stores them;
* JavaScript objects used as maps become association lists
  (`List (String × _)`) with insertion-order iteration, in-place update and
  key deletion, matching object semantics;
* JavaScript numbers that can become `NaN` are `Option Int` (`none` = NaN);
  property keys built from numbers go through `jsKey`, mirroring the
  number-to-string coercion of property access;
* methods that can `throw` return `Except String _`; methods that mutate
  `this` additionally return the updated state, with the state unchanged at
  the point the source throws;
* the cryptographic primitives (double SHA-256, ECDSA sign/verify), the
  byte reader/writer, the `PublicKey`/`Signature` codecs and the `Sighash`
  module are not part of the four source files; they are modelled from the
  specification and marked as such in their doc comments.
-/

/-- Modelled from the spec: the reader side of the codec (§4.1).  `readUInt8`
fails with UnexpectedEOF when out of bytes, otherwise consumes one byte. -/
def readUInt8 (l : List Nat) : Except String (Nat × List Nat) :=
  match l with
  | [] => .error "UnexpectedEOF"
  | b :: r => .ok (b, r)

/-- Modelled from the spec: fixed-length byte-run read; fails with
UnexpectedEOF when fewer than `n` bytes remain. -/
def readBytes (n : Nat) (l : List Nat) : Except String (List Nat × List Nat) :=
  if l.length < n then .error "UnexpectedEOF"
  else .ok (l.take n, l.drop n)

/-- Modelled from the spec: little-endian u32 read. -/
def readUInt32LE (l : List Nat) : Except String (Nat × List Nat) :=
  match l with
  | b0 :: b1 :: b2 :: b3 :: r =>
      .ok (b0 + b1 * 256 + b2 * 65536 + b3 * 16777216, r)
  | _ => .error "UnexpectedEOF"

/-- Modelled from the spec: little-endian i32 read (two's complement). -/
def readInt32LE (l : List Nat) : Except String (Int × List Nat) :=
  match readUInt32LE l with
  | .error e => .error e
  | .ok (v, r) =>
      .ok (if v < 2147483648 then (v : Int) else (v : Int) - 4294967296, r)

/-- Modelled from the spec: u8 write (the byte value modulo 256; the source
asserts the range instead, and every serialized field is in range). -/
def writeUInt8 (n : Nat) : List Nat := [n % 256]

/-- Modelled from the spec: little-endian u32 write. -/
def writeUInt32LE (n : Nat) : List Nat :=
  [n % 256, n / 256 % 256, n / 65536 % 256, n / 16777216 % 256]

/-- Modelled from the spec: little-endian i32 write (two's complement). -/
def writeInt32LE (x : Int) : List Nat :=
  writeUInt32LE (x % 4294967296).toNat

/-- Hex digit value of a character, `none` for a non-hex character. -/
def hexVal (c : Char) : Option Nat :=
  if 48 ≤ c.toNat ∧ c.toNat ≤ 57 then some (c.toNat - 48)
  else if 97 ≤ c.toNat ∧ c.toNat ≤ 102 then some (c.toNat - 87)
  else if 65 ≤ c.toNat ∧ c.toNat ≤ 70 then some (c.toNat - 55)
  else none

/-- Byte list of a hex character list; like `Buffer.from(str, 'hex')` it
stops at the first invalid pair and drops an odd trailing digit. -/
def hexPairs : List Char → List Nat
  | c1 :: c2 :: rest =>
      match hexVal c1, hexVal c2 with
      | some a, some b => (16 * a + b) :: hexPairs rest
      | _, _ => []
  | _ => []

/-- Byte list of a hex string (`new Buffer(s, 'hex')`). -/
def hexToBytes (s : String) : List Nat := hexPairs s.data

/-- Hex character of a nibble (lowercase, as Node's `toString('hex')`). -/
def nibbleChar (n : Nat) : Char :=
  if n < 10 then Char.ofNat (48 + n) else Char.ofNat (87 + n)

/-- Lowercase hex string of a byte list (`buf.toString('hex')`). -/
def bytesToHex (l : List Nat) : String :=
  String.mk (l.foldr (fun b acc => nibbleChar (b / 16 % 16) :: nibbleChar (b % 16) :: acc) [])

/-- The 32 zero bytes (`BufferUtil.NULL_HASH` / `Block.Values.NULL_HASH`). -/
def NULL32 : List Nat := List.replicate 32 0

/-- The engine's `NULL` constant: the display hex of the null hash. -/
def NULL : String :=
  "0000000000000000000000000000000000000000000000000000000000000000"

/-- A JavaScript `Buffer` as held by a transaction's `input` field.  The
source compares `input` with `===` (reference equality), so the model keeps
track of whether the field holds the one canonical `BufferUtil.NULL_HASH`
object (`nullHashRef`, assigned only by `_newTransaction`) or a freshly
allocated buffer (`fresh`, produced by every decode and by `from`). -/
inductive JSBuffer : Type where
  | nullHashRef : JSBuffer
  | fresh (bytes : List Nat) : JSBuffer
deriving DecidableEq

/-- The byte content of a buffer; the canonical null-hash object holds the
32 zero bytes. -/
def JSBuffer.bytes : JSBuffer → List Nat
  | .nullHashRef => NULL32
  | .fresh b => b

/-- A transaction object (`transaction.js`).  `position` is flattened into
`x`/`y`; `owner` is a public key (byte list) or `null`; `signature` is a
signature byte list or unset; `prev` is the `_previous` transaction set by
`from` when given a `Transaction`. -/
inductive Transaction : Type where
  | mk (version : Nat) (input : JSBuffer) (x y : Int) (color : Nat)
       (owner : Option (List Nat)) (signature : Option (List Nat))
       (prev : Option Transaction) : Transaction

def Transaction.version : Transaction → Nat
  | .mk v _ _ _ _ _ _ _ => v

def Transaction.input : Transaction → JSBuffer
  | .mk _ i _ _ _ _ _ _ => i

def Transaction.x : Transaction → Int
  | .mk _ _ x _ _ _ _ _ => x

def Transaction.y : Transaction → Int
  | .mk _ _ _ y _ _ _ _ => y

def Transaction.color : Transaction → Nat
  | .mk _ _ _ _ c _ _ _ => c

def Transaction.owner : Transaction → Option (List Nat)
  | .mk _ _ _ _ _ o _ _ => o

def Transaction.signature : Transaction → Option (List Nat)
  | .mk _ _ _ _ _ _ s _ => s

def Transaction.prev : Transaction → Option Transaction
  | .mk _ _ _ _ _ _ _ p => p

/-- Replace the `signature` field (`this.signature = ...`). -/
def Transaction.setSignature : Transaction → Option (List Nat) → Transaction
  | .mk v i x y c o _ p, s => .mk v i x y c o s p

/-- Replace the `input` field (`this.input = ...`). -/
def Transaction.setInput : Transaction → JSBuffer → Transaction
  | .mk v _ x y c o s p, i => .mk v i x y c o s p

/-- Replace the `owner` field (`this.owner = ...`). -/
def Transaction.setOwner : Transaction → Option (List Nat) → Transaction
  | .mk v i x y c _ s p, o => .mk v i x y c o s p

/-- Replace the `position` field (`this.position.x = x; this.position.y = y`). -/
def Transaction.setPos : Transaction → Int → Int → Transaction
  | .mk v i _ _ c o s p, x, y => .mk v i x y c o s p

/-- Replace the `color` field (`this.color = ...`). -/
def Transaction.setColor : Transaction → Nat → Transaction
  | .mk v i x y _ o s p, c => .mk v i x y c o s p

/-- Set `position` and `_previous` together (`from` given a `Transaction`). -/
def Transaction.setPrevAndPos : Transaction → Transaction → Transaction
  | .mk v i _ _ c o s _, t0 => .mk v i t0.x t0.y c o s (some t0)

/-- Embeds `Transaction.prototype.toBufferWriter` / `toBuffer`: the wire bytes
`u8 version | [32] input | i32 x | i32 y | u32 color | owner | u8 sigLen |
[sigLen] signature`; the owner is written by the `PublicKey` codec (its raw
33 bytes in this model) only when present, and an absent signature is
encoded as a zero length byte. -/
def Transaction.toBuffer (t : Transaction) : List Nat :=
  writeUInt8 t.version ++ t.input.bytes ++ writeInt32LE t.x ++ writeInt32LE t.y ++
    writeUInt32LE t.color ++
    (match t.owner with
     | some pk => pk
     | none => []) ++
    (match t.signature with
     | some s => writeUInt8 s.length ++ s
     | none => writeUInt8 0)

/-- Modelled from the spec: `PublicKey.fromBufferReader` (§4.3 leaves the key
codec implementation-defined but stable; this model uses the fixed 33-byte
compressed-key form that the genesis owner key uses). -/
def publicKeyFromBufferReader (l : List Nat) : Except String (List Nat × List Nat) :=
  readBytes 33 l

/-- Embeds `Transaction.prototype.fromBufferReader`: decode the wire bytes.  The
`input` buffer is freshly allocated by `reader.read(32)`; the signature field
is only assigned when the length byte is truthy (non-zero); `_previous` is
never set by decoding. -/
def Transaction.fromBufferReader (l : List Nat) : Except String (Transaction × List Nat) :=
  if l.isEmpty then .error "No transaction data received"
  else
    match readUInt8 l with
    | .error e => .error e
    | .ok (version, l) =>
    match readBytes 32 l with
    | .error e => .error e
    | .ok (input, l) =>
    match readInt32LE l with
    | .error e => .error e
    | .ok (x, l) =>
    match readInt32LE l with
    | .error e => .error e
    | .ok (y, l) =>
    match readUInt32LE l with
    | .error e => .error e
    | .ok (color, l) =>
    match publicKeyFromBufferReader l with
    | .error e => .error e
    | .ok (owner, l) =>
    match readUInt8 l with
    | .error e => .error e
    | .ok (sigLen, l) =>
    if sigLen ≠ 0 then
      match readBytes sigLen l with
      | .error e => .error e
      | .ok (sig, l) =>
          .ok (.mk version (.fresh input) x y color (some owner) (some sig) none, l)
    else
      .ok (.mk version (.fresh input) x y color (some owner) none none, l)

/-- Embeds `Transaction.prototype.isCoinbase`: `this.input === BufferUtil.NULL_HASH`.
`===` on objects is reference equality, so this is true exactly when the
field still holds the canonical `NULL_HASH` buffer object, never for a
freshly allocated buffer of equal content. -/
def Transaction.isCoinbase (t : Transaction) : Bool :=
  match t.input with
  | .nullHashRef => true
  | .fresh _ => false

/-- Modelled from the spec: an abstract deterministic signature scheme
(§4.2); `verify pk digest sig`, `sign sk digest`, and the keypair relation
are black boxes. -/
structure SigScheme where
  sign : Nat → List Nat → List Nat
  verify : List Nat → List Nat → List Nat → Bool
  keypair : Nat → List Nat → Bool

/-- Modelled from the spec: the crypto adapter — an abstract double-SHA256
`dh` together with a signature scheme. -/
structure Crypto where
  dh : List Nat → List Nat
  scheme : SigScheme

/-- Modelled from the spec: the sighash preimage is the serialization of the
transaction with `sigLen == 0`, i.e. with the signature bytes excluded. -/
def sighashPreimage (t : Transaction) : List Nat :=
  Transaction.toBuffer (t.setSignature none)

/-- Modelled from the spec: `Sighash.sign(tx, privKey)` signs the double
hash of the sighash preimage. -/
def sighashSign (C : Crypto) (t : Transaction) (sk : Nat) : List Nat :=
  C.scheme.sign sk (C.dh (sighashPreimage t))

/-- Modelled from the spec: `Sighash.verify(tx, sig, pubkey)` verifies the
signature over the double hash of the sighash preimage; an absent signature
or owner verifies as false. -/
def sighashVerify (C : Crypto) (t : Transaction) (sig : Option (List Nat))
    (owner : Option (List Nat)) : Bool :=
  match sig, owner with
  | some s, some pk => C.scheme.verify pk (C.dh (sighashPreimage t)) s
  | _, _ => false

/-- Embeds `Transaction.prototype.getHash`: `Hash.sha256sha256(this.toBuffer())`
(little-endian hash bytes). -/
def Transaction.getHash (C : Crypto) (t : Transaction) : List Nat :=
  C.dh (t.toBuffer)

/-- The `id`/`hash` property: the reversed hash bytes rendered as hex. -/
def Transaction.idHex (C : Crypto) (t : Transaction) : String :=
  bytesToHex (t.getHash C).reverse

/-- Embeds `Transaction.prototype._newTransaction` (the no-argument constructor):
version 1, `input` aliased to the canonical `NULL_HASH` object, position
`(0, 0)`, color 0, no owner. -/
def txNew : Transaction :=
  .mk 1 .nullHashRef 0 0 0 none none none

/-- The dynamically typed argument of `Transaction.prototype.from`: a hex
string or a previous `Transaction`. -/
inductive FromArg : Type where
  | str (s : String) : FromArg
  | tx (t : Transaction) : FromArg

/-- Embeds `Transaction.prototype.from`: with a hex string it only assigns
`this.input` from the hex bytes and returns; with a `Transaction` it copies
the position, records `_previous`, and sets `input` to the id bytes (the
reversed transaction hash; the hex round trip of `tx.id` cancels out). -/
def Transaction.from_ (C : Crypto) (t : Transaction) : FromArg → Transaction
  | .str s => t.setInput (.fresh (hexToBytes s))
  | .tx t0 => (t.setPrevAndPos t0).setInput (.fresh (t0.getHash C).reverse)

/-- Embeds `Transaction.prototype.to`: sets the owner public key. -/
def Transaction.to (t : Transaction) (pk : List Nat) : Transaction :=
  t.setOwner (some pk)

/-- Embeds `Transaction.prototype.at`: rejected once a `_previous` transaction was
set, otherwise assigns the position. -/
def Transaction.at_ (t : Transaction) (x y : Int) : Except String Transaction :=
  match t.prev with
  | some _ => .error "Can not set position if a previous transaction was set"
  | none => .ok (t.setPos x y)

/-- The dynamically typed argument of
`Transaction.prototype.isValidSignature`: call sites may pass a `Signature`
or (as the spec's API sketch suggests) a `PublicKey`. -/
inductive SigArg : Type where
  | pk (k : List Nat) : SigArg
  | sig (s : List Nat) : SigArg

/-- Embeds `Transaction.prototype.isValidSignature(signature)`: requires a
`_previous` transaction with a `PublicKey` owner, requires the argument to
be a `Signature` (`$.checkArgument(signature instanceof Signature)`), and
returns `Sighash.verify(this, signature, this._previous.owner)`. -/
def Transaction.isValidSignature (C : Crypto) (t : Transaction) (arg : SigArg) :
    Except String Bool :=
  match t.prev with
  | none => .error "No previous transaction information, cannot validate signature"
  | some p =>
    match p.owner with
    | none => .error "Previous transaction has invalid owner"
    | some own =>
      match arg with
      | .pk _ => .error "signature must be a Signature"
      | .sig s => .ok (C.scheme.verify own (C.dh (sighashPreimage t)) s)

/-- Embeds `Transaction.prototype.sign` (single key): computes
`Sighash.sign(this, privateKey)`, then `applySignature` checks
`isValidSignature(sig)` and assigns `this.signature`. -/
def Transaction.sign (C : Crypto) (t : Transaction) (sk : Nat) :
    Except String Transaction :=
  let s := sighashSign C t sk
  match t.isValidSignature C (.sig s) with
  | .error e => .error e
  | .ok b =>
      if b then .ok (t.setSignature (some s))
      else .error "invalid signature for this transaction"

/-- A JavaScript number that may be `NaN` (`none`); arises from adding 1 to
an `undefined` map entry. -/
abbrev JsNum := Option Int

/-- First-match lookup in an association list, i.e. property read on a
JavaScript object used as a map (`none` = `undefined`). -/
def alookup {α : Type} : List (String × α) → String → Option α
  | [], _ => none
  | (k, v) :: rest, key => if k = key then some v else alookup rest key

/-- Property write on an object map: replace in place when the key exists
(preserving insertion order), otherwise append. -/
def aset {α : Type} : List (String × α) → String → α → List (String × α)
  | [], key, v => [(key, v)]
  | (k, w) :: rest, key, v =>
      if k = key then (k, v) :: rest else (k, w) :: aset rest key v

/-- Property deletion on an object map (`delete obj[key]`). -/
def adelete {α : Type} : List (String × α) → String → List (String × α)
  | [], _ => []
  | (k, w) :: rest, key =>
      if k = key then rest else (k, w) :: adelete rest key

/-- The string a JavaScript number turns into when used as a property key
(`NaN` stringifies to "NaN"). -/
def jsKey : JsNum → String
  | none => "NaN"
  | some n => toString n

/-- The property key of a possibly undefined height value (`undefined`
stringifies to "undefined"). -/
def jsHKey : Option JsNum → String
  | none => "undefined"
  | some v => jsKey v

/-- JavaScript truthiness of a possibly absent numeric map entry:
`undefined`, `NaN` and `0` are falsy. -/
def jsFalsy : Option JsNum → Bool
  | none => true
  | some none => true
  | some (some n) => n == 0

/-- JavaScript `>` on two numbers: false when either side is `NaN`. -/
def jsGT : JsNum → JsNum → Bool
  | some a, some b => a > b
  | _, _ => false

/-- Adding a constant to a possibly undefined work entry:
`undefined + 1` and `NaN + 1` are `NaN`. -/
def jsAddLookup : Option JsNum → Int → JsNum
  | none, _ => none
  | some none, _ => none
  | some (some n), k => some (n + k)

/-- Embeds `posToString`: `pos.x + '_' + pos.y`. -/
def posToString (x y : Int) : String :=
  toString x ++ "_" ++ toString y

/-- Embeds `neighbors`: the four positions at Manhattan distance 1. -/
def neighbors (x y : Int) : List (Int × Int) :=
  [(x - 1, y), (x + 1, y), (x, y - 1), (x, y + 1)]

/-- A `Block` as the engine observes it: the `hash`, `prevHash` (display
hex strings via the child-property getters), the header `height`, and the
transaction list. -/
structure EngineBlock : Type where
  hash : String
  prevHash : String
  height : Int
  transactions : List Transaction

/-- The engine state (`Blockchain`): the tip hash, the `work`, `height`,
`hashByHeight`, `next`, `prev` and `pixels` object maps, and the two
content-addressed stores. -/
structure Blockchain : Type where
  tip : String
  work : List (String × JsNum)
  height : List (String × JsNum)
  hashByHeight : List (String × String)
  next : List (String × String)
  prev : List (String × String)
  pixels : List (String × Transaction)
  blockStore : List (String × EngineBlock)
  txStore : List (String × Transaction)

/-- The `Blockchain` constructor: `tip = NULL`, `work[NULL] = 0`,
`height[NULL] = -1`, `hashByHeight[-1] = NULL`, everything else empty. -/
def Blockchain.new : Blockchain where
  tip := NULL
  work := [(NULL, some 0)]
  height := [(NULL, some (-1))]
  hashByHeight := [("-1", NULL)]
  next := []
  prev := []
  pixels := []
  blockStore := []
  txStore := []

/-- Embeds `getWork`: the source's work stub, constant 1 (its TODO notes the real
formula is unimplemented). -/
def getWork (_ : String) : Int := 1

/-- Embeds `Blockchain.prototype.addHashReferences`:
`work[hash] = work[prevHash] + getWork(hash)`; `prev[hash] = prevHash`. -/
def Blockchain.addHashReferences (st : Blockchain) (block : EngineBlock) : Blockchain :=
  { st with
    work := aset st.work block.hash (jsAddLookup (alookup st.work block.prevHash) (getWork block.hash))
    prev := aset st.prev block.hash block.prevHash }

/-- Modelled from the spec: `TransactionStore.set` keys the transaction by
its display hash (§4.6 content-addressed store; the store module is not in
the sources). `saveTxToStore` stores every transaction of the block. -/
def Blockchain.saveTxToStore (C : Crypto) (st : Blockchain) (block : EngineBlock) : Blockchain :=
  { st with
    txStore := block.transactions.foldl (fun m tx => aset m (tx.idHex C) tx) st.txStore }

/-- Embeds `Blockchain.prototype.saveBlockToStore`: store the block by its hash
and its transactions. -/
def Blockchain.saveBlockToStore (C : Crypto) (st : Blockchain) (block : EngineBlock) : Blockchain :=
  let st := { st with blockStore := aset st.blockStore block.hash block }
  st.saveTxToStore C block

/-- The signature-check loop of `checkValidBlock` (line 124-134): for each
non-coinbase transaction, the previous owner at the position is a prior
transaction of this block at the same position, else the pixel's current
holder; an undefined previous holder makes the `prevTx[pos].owner` access
throw a TypeError (caught by `isValidBlock`). -/
def checkSignatures (C : Crypto) (st : Blockchain) :
    List (String × Transaction) → List Transaction → Except String Unit
  | _, [] => .ok ()
  | prevTx, tx :: rest =>
    let pos := posToString tx.x tx.y
    match alookup prevTx pos <|> alookup st.pixels pos with
    | none => .error "TypeError: cannot read owner of undefined"
    | some p =>
        if sighashVerify C tx tx.signature p.owner then
          checkSignatures C st (aset prevTx pos tx) rest
        else .error "Signature mismatch"

/-- Embeds `Blockchain.prototype.checkValidBlock`: parent work must be known, the
coinbase pixel must not be live, the coinbase must be adjacent to a live
pixel unless `block.height === 0`, and every later transaction must carry a
valid signature of the previous holder at its position. -/
def Blockchain.checkValidBlock (C : Crypto) (st : Blockchain) (block : EngineBlock) :
    Except String Unit :=
  if (alookup st.work block.prevHash).isNone then
    .error "Could not find parent in memory for block"
  else
    match block.transactions with
    | [] => .error "TypeError: cannot read position of undefined"
    | coinbase :: rest =>
      let coinbasePos := posToString coinbase.x coinbase.y
      if (alookup st.pixels coinbasePos).isSome then
        .error "Pixel in coinbase already mined"
      else
        let adjacent := (block.height == 0) ||
          (neighbors coinbase.x coinbase.y).any
            (fun p => (alookup st.pixels (posToString p.1 p.2)).isSome)
        if !adjacent then .error "Mined block is not adjacent to another pixel"
        else checkSignatures C st (aset [] coinbasePos coinbase) rest

/-- Embeds `Blockchain.prototype.isValidBlock`: `checkValidBlock` wrapped in
try/catch. -/
def Blockchain.isValidBlock (C : Crypto) (st : Blockchain) (block : EngineBlock) : Bool :=
  match st.checkValidBlock C block with
  | .ok _ => true
  | .error _ => false

/-- Embeds `Blockchain.prototype.confirm`: the contiguity `$.checkState` as
written in the source is `prevHash !== NULL || prevHash === this.tip`, so
it only throws when the parent is `NULL` while the tip is not; on the pass
path the tip, `next`, `hashByHeight` and `height` indices are updated
(`height[prevHash] + 1` is `NaN` when the parent has no height entry) and
every transaction of the block overwrites its pixel. -/
def Blockchain.confirm (st : Blockchain) (ob : Option EngineBlock) :
    Blockchain × Except String Unit :=
  match ob with
  | none => (st, .error "TypeError: cannot read hash of undefined")
  | some block =>
    let hash := block.hash
    let prevHash := alookup st.prev hash
    if prevHash ≠ some NULL ∨ prevHash = some st.tip then
      let prevKey := (prevHash.getD "undefined")
      let height := jsAddLookup (alookup st.height prevKey) 1
      let st := { st with
        tip := hash
        next := aset st.next prevKey hash
        hashByHeight := aset st.hashByHeight (jsKey height) hash
        height := aset st.height hash height }
      (block.transactions.foldl
        (fun s tx => { s with pixels := aset s.pixels (posToString tx.x tx.y) tx }) st,
       .ok ())
    else (st, .error "Attempting to confirm a non-contiguous block.")

/-- The dynamically typed argument `unconfirm` receives: the engine's reorg
path passes the `Block` object from the store (or `undefined` when the
store misses), while the function body treats it as a hash string. -/
inductive JsVal : Type where
  | undef : JsVal
  | str (s : String) : JsVal
  | blk (b : EngineBlock) : JsVal

/-- Embeds `Blockchain.prototype.unconfirm(hash)`: `$.checkState(hash ===
this.tip)` — strict equality, which no `Block` object or `undefined` ever
passes against the tip string — then rolls back `tip`, `next`,
`hashByHeight` and `height`.  The `pixels` map is never touched. -/
def Blockchain.unconfirm (st : Blockchain) (v : JsVal) :
    Blockchain × Except String Unit :=
  match v with
  | .str hash =>
    if hash = st.tip then
      let prevHash := (alookup st.prev hash).getD "undefined"
      let height := alookup st.height hash
      ({ st with
          tip := prevHash
          next := adelete st.next prevHash
          hashByHeight := adelete st.hashByHeight (jsHKey height)
          height := adelete st.height hash }, .ok ())
    else (st, .error "Attempting to unconfirm a non-tip block")
  | _ => (st, .error "Attempting to unconfirm a non-tip block")

/-- Embeds `Blockchain.prototype.hasData`: `NULL` always has data, otherwise the
work entry must be defined. -/
def Blockchain.hasData (st : Blockchain) (hash : String) : Bool :=
  hash == NULL || (alookup st.work hash).isSome

/-- The first walk of `_appendNewBlock`: follow `prev` from the new hash
until a node with a height assignment (the common ancestor), collecting the
hashes to confirm.  The fuel models the fact that the JavaScript `while`
loop diverges if the walk never meets the active chain; it is larger than
any walk the engine can produce. -/
def walkToConfirm (st : Blockchain) : String → Nat → Except String (List String × String)
  | _, 0 => .error "nontermination: prev walk never reached the active chain"
  | pointer, fuel + 1 =>
    if (alookup st.height pointer).isNone then
      match walkToConfirm st ((alookup st.prev pointer).getD "undefined") fuel with
      | .error e => .error e
      | .ok (lst, anc) => .ok (pointer :: lst, anc)
    else .ok ([], pointer)

/-- The second walk of `_appendNewBlock`: follow `prev` from the tip down
to the common ancestor, collecting the hashes to unconfirm. -/
def walkToUnconfirm (st : Blockchain) (ancestor : String) :
    String → Nat → Except String (List String)
  | _, 0 => .error "nontermination: tip walk never reached the ancestor"
  | pointer, fuel + 1 =>
    if pointer = ancestor then .ok []
    else
      match walkToUnconfirm st ancestor ((alookup st.prev pointer).getD "undefined") fuel with
      | .error e => .error e
      | .ok lst => .ok (pointer :: lst)

/-- Sequence a state-mutating, possibly throwing step over a list, stopping
at the first throw (a throw inside `Array.prototype.map` aborts it). -/
def foldExcept (f : Blockchain → String → Blockchain × Except String Unit) :
    Blockchain → List String → Blockchain × Except String Unit
  | st, [] => (st, .ok ())
  | st, h :: rest =>
    match f st h with
    | (s, .ok _) => foldExcept f s rest
    | (s, .error e) => (s, .error e)

/-- The result object of `proposeNewBlock`. -/
structure ReorgResult : Type where
  unconfirmed : List String
  confirmed : List String

/-- Embeds `Blockchain.prototype._appendNewBlock`: collect the two walks, then
unconfirm tip-side blocks (passing the *Block object* from the store to
`unconfirm`, as the source does) and confirm the new branch oldest first. -/
def Blockchain.appendNewBlock (st : Blockchain) (hash : String) :
    Blockchain × Except String ReorgResult :=
  let fuel := st.prev.length + 1
  match walkToConfirm st hash fuel with
  | .error e => (st, .error e)
  | .ok (toConfirm, commonAncestor) =>
  match walkToUnconfirm st commonAncestor st.tip fuel with
  | .error e => (st, .error e)
  | .ok toUnconfirm =>
    let toConfirmR := toConfirm.reverse
    match foldExcept
        (fun s h => s.unconfirm (match alookup s.blockStore h with
          | some b => .blk b
          | none => .undef)) st toUnconfirm with
    | (s, .error e) => (s, .error e)
    | (s, .ok _) =>
      match foldExcept (fun s h => s.confirm (alookup s.blockStore h)) s toConfirmR with
      | (s2, .error e) => (s2, .error e)
      | (s2, .ok _) => (s2, .ok ⟨toUnconfirm, toConfirmR⟩)

/-- Embeds `Blockchain.prototype.proposeNewBlock`: reject unless `isValidBlock`
(`$.checkArgument` throws before any mutation), require known parent work,
store the block, record work and prev, and reorg when the new cumulative
work beats the tip's. -/
def Blockchain.proposeNewBlock (C : Crypto) (st : Blockchain) (block : EngineBlock) :
    Blockchain × Except String ReorgResult :=
  if !(st.isValidBlock C block) then
    (st, .error "Invalid Argument: block is not valid")
  else if !(st.hasData block.prevHash) then
    (st, .error "Invalid state: No previous data to estimate work")
  else
    let st := st.saveBlockToStore C block
    let st := st.addHashReferences block
    let work := alookup st.work block.hash
    let tipWork := alookup st.work st.tip
    if work.isNone then (st, .error "Invalid state: No work found")
    else if tipWork.isNone then (st, .error "Invalid state: No work found for tip")
    else if jsGT (work.getD none) (tipWork.getD none) then
      st.appendNewBlock block.hash
    else (st, .ok ⟨[], []⟩)

/-- Embeds `Blockchain.prototype.prune`: `_.each(this.prev, function(key) {...})`
hands the callback the *value* of each entry (the parent hash) as `key`;
the body deletes `prev[key]`/`work[key]` whenever `height[key]` is falsy —
which is also the case for height `0`.  Iteration walks a snapshot of the
keys, reading each entry's current value. -/
def Blockchain.prune (st : Blockchain) : Blockchain :=
  (st.prev.map Prod.fst).foldl
    (fun s k =>
      let v := (alookup s.prev k).getD "undefined"
      if jsFalsy (alookup s.height v) then
        { s with prev := adelete s.prev v, work := adelete s.work v }
      else s)
    st

/-- Embeds `Blockchain.prototype.getCurrentHeight`: `this.height[this.tip]`. -/
def Blockchain.getCurrentHeight (st : Blockchain) : Option JsNum :=
  alookup st.height st.tip

/-- The first loop of `getBlockLocator`: ten iterations, each pushing
`hashByHeight[currentHeight--]` when the current height is still
nonnegative; returns the pushed entries and the final current height. -/
def locatorFirst (hbh : List (String × String)) (c : Int) :
    Nat → List (Option String) × Int
  | 0 => ([], c)
  | n + 1 =>
    if 0 ≤ c then
      let r := locatorFirst hbh (c - 1) n
      (alookup hbh (toString c) :: r.1, r.2)
    else locatorFirst hbh c n

/-- The second loop of `getBlockLocator`: while the height is strictly
positive, push its hash, step down by the backoff and double it.  The
backoff is carried as `k` with value `k + 1`, starting at 1. -/
def locatorLoop (hbh : List (String × String)) (c : Int) (k : Nat) :
    List (Option String) :=
  if h : 0 < c then
    alookup hbh (toString c) :: locatorLoop hbh (c - (k + 1)) (2 * k + 1)
  else []
termination_by c.toNat
decreasing_by
  omega

/-- Embeds `Blockchain.prototype.getBlockLocator`: requires a truthy tip and a
defined `height[tip]`; pushes the ten most recent heights' hashes, then
continues with the exponential-backoff loop.  A `NaN` current height makes
both loop guards false, yielding the empty list. -/
def Blockchain.getBlockLocator (st : Blockchain) : Except String (List (Option String)) :=
  if st.tip = "" then .error "Invalid state: tip"
  else
    match alookup st.height st.tip with
    | none => .error "Invalid state: height of tip is undefined"
    | some hv =>
      match hv with
      | none => .ok []
      | some currentHeight =>
        let r := locatorFirst st.hashByHeight currentHeight 10
        .ok (r.1 ++ locatorLoop st.hashByHeight r.2 0)

/-- Embeds `Block.prototype.getTransactionHashes`: the `NULL_HASH` singleton for
an empty transaction list, else each transaction's hash.  `dh` abstracts
`Hash.sha256sha256`. -/
def getTransactionHashes (dh : List Nat → List Nat) (txs : List Transaction) : List (List Nat) :=
  if txs.isEmpty then [NULL32]
  else txs.map (fun t => dh t.toBuffer)

/-- The inner loop of `Block.prototype.getMerkleTree`: for `i = 0, 2, …`
below `size`, push `dhash(tree[j + i] ++ tree[j + min(i+1, size-1)])` onto
the end of the flat tree. -/
def merkleInner (dh : List Nat → List Nat) (tree : List (List Nat)) (j size i : Nat) :
    List (List Nat) :=
  if h : i < size then
    merkleInner dh
      (tree ++ [dh ((tree[j + i]?).getD [] ++ (tree[j + min (i + 1) (size - 1)]?).getD [])])
      j size (i + 2)
  else tree
termination_by size - i

/-- The outer loop of `Block.prototype.getMerkleTree`: starting from the
transaction hashes, reduce each level of `size` nodes (read at offset `j`)
while `size > 1`, with the next level of `⌈size/2⌉` nodes appended at the
end of the flat sequence. -/
def merkleOuter (dh : List Nat → List Nat) (tree : List (List Nat)) (j size : Nat) :
    List (List Nat) :=
  if h : 1 < size then
    merkleOuter dh (merkleInner dh tree j size 0) (j + size) ((size + 1) / 2)
  else tree
termination_by size
decreasing_by
  exact Nat.div_lt_of_lt_mul (by omega)

/-- Embeds `Block.prototype.getMerkleTree`: the flat sequence of all levels. -/
def getMerkleTree (dh : List Nat → List Nat) (txs : List Transaction) : List (List Nat) :=
  merkleOuter dh (getTransactionHashes dh txs) 0 txs.length

/-- Embeds `Block.prototype.getMerkleRoot`: the last node of the flat tree
(`tree[tree.length - 1]`). -/
def getMerkleRoot (dh : List Nat → List Nat) (txs : List Transaction) : List Nat :=
  ((getMerkleTree dh txs).getLast?).getD []

/-- The claim's Merkle level reduction: `n` nodes become `⌈n/2⌉` parents,
parent `i` being `dhash(node[2i] ++ node[min(2i+1, n-1)])`, the odd tail
duplicating the last node. -/
def merkleStep (dh : List Nat → List Nat) : List (List Nat) → List (List Nat)
  | [] => []
  | [a] => [dh (a ++ a)]
  | a :: b :: rest => dh (a ++ b) :: merkleStep dh rest

/-- The claim's Merkle root of a nonempty node list: iterate the level
reduction down to a single node. -/
def reduceRoot (dh : List Nat → List Nat) (l : List (List Nat)) : List Nat :=
  match l with
  | [] => NULL32
  | [a] => a
  | a :: b :: rest => reduceRoot dh (merkleStep dh (a :: b :: rest))
termination_by l.length
decreasing_by
  have hle : ∀ (m : List (List Nat)), (merkleStep dh m).length ≤ m.length := by
    intro m
    induction m using merkleStep.induct dh <;> simp_all [merkleStep]
    omega
  have h2 := hle rest
  simp [merkleStep]
  omega

/-- The Merkle root exactly as the claim states it: the all-zero hash for
an empty transaction list, otherwise the iterated level reduction of the
transaction hashes. -/
def merkleRootClaim (dh : List Nat → List Nat) (txs : List Transaction) : List Nat :=
  if txs.isEmpty then NULL32
  else reduceRoot dh (txs.map (fun t => dh t.toBuffer))

/-- The heights `getBlockLocator` actually emits, in closed form: the
nonnegative heights among `H, H-1, …, H-9`, then the strictly positive
heights among `H - 9 - 2^j` for `j = 0, 1, 2, …` (successive emitted gaps
1, 1, 2, 4, 8, …). -/
def locatorHeightsAmended (H : Int) : List Int :=
  ((List.range 10).filterMap
    (fun (t : Nat) => if 0 ≤ H - (t : Int) then some (H - (t : Int)) else none)) ++
  ((List.range (H - 9).toNat).filterMap
    (fun (j : Nat) => if 0 < H - 9 - (2 : Int) ^ j then some (H - 9 - (2 : Int) ^ j) else none))

/-- The heights the claim describes: the nonnegative heights among
`H, …, H-9`, then gaps of exactly 1, 2, 4, 8, … below `H - 9`, i.e. the
strictly positive heights among `H - 8 - 2^(j+1)`. -/
def claimLocatorHeights (H : Int) : List Int :=
  ((List.range 10).filterMap
    (fun (t : Nat) => if 0 ≤ H - (t : Int) then some (H - (t : Int)) else none)) ++
  ((List.range (H - 9).toNat).filterMap
    (fun (j : Nat) => if 0 < H - 8 - (2 : Int) ^ (j + 1) then some (H - 8 - (2 : Int) ^ (j + 1)) else none))

/-- A deterministic toy signature scheme used to instantiate the abstract
crypto adapter at concrete inputs: the signature prepends the key byte to
the digest. -/
def toyScheme : SigScheme where
  sign := fun sk m => (sk % 256) :: m
  verify := fun pk m s => decide (s = pk.headD 0 :: m)
  keypair := fun sk pk => decide (pk = [sk % 256])

/-- A concrete crypto adapter: a stand-in digest plus the toy scheme. -/
def toyCrypto : Crypto where
  dh := fun l => List.replicate 32 (l.length % 256)
  scheme := toyScheme

/-- A 33-byte public key used in concrete scenarios. -/
def pkG : List Nat := 2 :: List.replicate 32 7

/-- A builder-made genesis-style coinbase at `(0, 0)` (its `input` is the
canonical `NULL_HASH` object, as `_newTransaction` leaves it). -/
def cbG : Transaction := .mk 1 .nullHashRef 0 0 1 (some pkG) none none

/-- A builder-made coinbase at `(1, 0)`. -/
def cb1 : Transaction := .mk 1 .nullHashRef 1 0 2 (some pkG) none none

/-- A builder-made coinbase at `(0, 1)`. -/
def cbX : Transaction := .mk 1 .nullHashRef 0 1 3 (some pkG) none none

/-- The stored genesis block of the concrete scenarios. -/
def blkG : EngineBlock := ⟨"g1", NULL, 0, [cbG]⟩

/-- A block of height 1 on top of `blkG` whose coinbase mints `(1, 0)`. -/
def blkB1 : EngineBlock := ⟨"b1", "g1", 1, [cb1]⟩

/-- A competing block of height 1 on top of `blkG` (a fork). -/
def blkX : EngineBlock := ⟨"x1", "g1", 1, [cbX]⟩

/-- A block whose parent hash is unknown to a fresh engine. -/
def blkBad : EngineBlock := ⟨"zz", "aa", 1, [cbG]⟩

/-- Engine state after admitting and confirming `blkG` and admitting (not
confirming) `blkB1`: tip `g1` at height 0, pixel `(0,0)` live, `prev` and
`work` entries for both blocks. -/
def stC1 : Blockchain where
  tip := "g1"
  work := [(NULL, some 0), ("g1", some 1), ("b1", some 2)]
  height := [(NULL, some (-1)), ("g1", some 0)]
  hashByHeight := [("-1", NULL), ("0", "g1")]
  next := [(NULL, "g1")]
  prev := [("g1", NULL), ("b1", "g1")]
  pixels := [("0_0", cbG)]
  blockStore := [("g1", blkG), ("b1", blkB1)]
  txStore := []

/-- Engine state with active chain `NULL → g1 → b1` (tip `b1` at height 1)
and the fork block `x1` admitted with parent `g1`. -/
def stC2 : Blockchain where
  tip := "b1"
  work := [(NULL, some 0), ("g1", some 1), ("b1", some 2), ("x1", some 2)]
  height := [(NULL, some (-1)), ("g1", some 0), ("b1", some 1)]
  hashByHeight := [("-1", NULL), ("0", "g1"), ("1", "b1")]
  next := [(NULL, "g1"), ("g1", "b1")]
  prev := [("g1", NULL), ("b1", "g1"), ("x1", "g1")]
  pixels := [("0_0", cbG), ("1_0", cb1)]
  blockStore := [("g1", blkG), ("b1", blkB1), ("x1", blkX)]
  txStore := []

/-- Engine state with a tip at height 13 and distinct hashes recorded for
every active height, for evaluating the block locator. -/
def stC6 : Blockchain where
  tip := "t13"
  work := []
  height := [("t13", some 13)]
  hashByHeight := [("0", "h0"), ("1", "h1"), ("2", "h2"), ("3", "h3"),
    ("4", "h4"), ("5", "h5"), ("6", "h6"), ("7", "h7"), ("8", "h8"),
    ("9", "h9"), ("10", "h10"), ("11", "h11"), ("12", "h12"), ("13", "t13")]
  next := []
  prev := []
  pixels := []
  blockStore := []
  txStore := []

/-- A concrete signed transaction with in-range fields, for evaluating the
codec round trip. -/
def tC8 : Transaction :=
  .mk 1 (.fresh (List.replicate 32 5)) 2 (-3) 7 (some pkG) (some [9, 9]) none

/-- The previous transaction of the C3 scenario: owned by the public key
`[7]`, which forms a toy keypair with the secret key 7. -/
def t0C3 : Transaction := .mk 1 .nullHashRef 0 0 5 (some [7]) none none

/-- The C3 transaction: built on `t0C3` with `from`. -/
def tC3 : Transaction := Transaction.from_ toyCrypto txNew (.tx t0C3)

deriving instance DecidableEq for Except

/-- C1: the claim says that after a confirm/unconfirm pair the `pixels` map
returns to its pre-confirm state.  In the source `unconfirm` never touches
`pixels`: confirming `blkB1` mints pixel `(1,0)` and unconfirming it leaves
that pixel in place, so the map differs from its pre-confirm state. -/
theorem c1_unconfirm_does_not_restore_pixels :
    (stC1.confirm (some blkB1)).2 = .ok () ∧
    ((stC1.confirm (some blkB1)).1.unconfirm (.str "b1")).2 = .ok () ∧
    (alookup stC1.pixels "1_0").isNone = true ∧
    (alookup ((stC1.confirm (some blkB1)).1.unconfirm (.str "b1")).1.pixels "1_0").isSome = true := by
  decide

/-- C2: the claim says `confirm` aborts whenever the block's parent is not
the current tip.  The source's check is `prevHash !== NULL || prevHash ===
this.tip`, which passes for any non-`NULL` parent: confirming the fork
block `x1` (parent `g1`, tip `b1`) succeeds and moves the tip. -/
theorem c2_confirm_accepts_nontip_parent :
    alookup stC2.prev "x1" = some "g1" ∧
    stC2.tip = "b1" ∧
    (stC2.confirm (some blkX)).2 = .ok () ∧
    (stC2.confirm (some blkX)).1.tip = "x1" := by
  decide

/-- C5: the claim says `prune` leaves the `prev`/`work` entries of
active-chain blocks unchanged.  The source hands the lodash callback the
entry's *value* and treats a height of 0 as missing, so pruning `stC1`
deletes the entries of `g1`, the active-chain block at height 0. -/
theorem c5_prune_deletes_active_chain_entries :
    alookup stC1.height "g1" = some (some 0) ∧
    alookup stC1.hashByHeight "0" = some "g1" ∧
    alookup stC1.work "g1" = some (some 1) ∧
    alookup stC1.prune.work "g1" = none ∧
    alookup stC1.prune.prev "g1" = none := by
  decide

/-- C4: the claim says `isCoinbase` is true exactly when the input bytes
are the 32 zero bytes, in particular after decoding.  `isCoinbase` compares
with `===` (reference equality), so the decoded copy of a coinbase — whose
input is a fresh all-zero buffer — is not recognized as a coinbase. -/
theorem c4_decoded_coinbase_not_recognized :
    Transaction.isCoinbase cbG = true ∧
    cbG.input.bytes = NULL32 ∧
    (Transaction.fromBufferReader cbG.toBuffer).map
      (fun p => (p.1.input.bytes == NULL32, p.1.isCoinbase, p.2.isEmpty)) =
      .ok (true, false, true) := by
  decide

/-- C3 (counterexample): the claim says that after `t.sign(sk)` the call
`t.isValidSignature(pk)` returns true.  The source's `isValidSignature`
requires its argument to be a `Signature`; handing it the public key throws
`checkArgument`, so the composition never returns true. -/
theorem c3_sign_then_isValidSignature_pk_fails :
    (Transaction.sign toyCrypto tC3 7).map (fun _ => ()) = .ok () ∧
    (Transaction.sign toyCrypto tC3 7).bind
      (fun t2 => t2.isValidSignature toyCrypto (.pk [7])) ≠ .ok true := by
  decide

/-- C10: `from` with a hex string assigns only `input` (no position copy,
no `_previous`), so `at(x, y)` still succeeds afterwards, while `from`
with a `Transaction` records `_previous` and makes `at` throw. -/
theorem c10_from_hex_only_sets_input (C : Crypto) (t : Transaction) (s : String)
    (x y : Int) (t0 : Transaction) :
    Transaction.from_ C t (.str s) = t.setInput (.fresh (hexToBytes s)) ∧
    (Transaction.from_ C txNew (.str s)).prev = none ∧
    (Transaction.from_ C txNew (.str s)).x = 0 ∧
    (Transaction.from_ C txNew (.str s)).y = 0 ∧
    (∃ r, Transaction.at_ (Transaction.from_ C txNew (.str s)) x y = .ok r) ∧
    (∃ e, Transaction.at_ (Transaction.from_ C txNew (.tx t0)) x y = .error e) :=
  ⟨rfl, rfl, rfl, rfl, ⟨_, rfl⟩, ⟨_, rfl⟩⟩

/-- C9: a block that fails validation is rejected by `proposeNewBlock`
before any mutation: the `$.checkArgument(this.isValidBlock(block))` throw
happens first, so the state — stores and all indices — is returned
untouched. -/
theorem c9_propose_invalid_leaves_state_untouched (C : Crypto) (st : Blockchain)
    (b : EngineBlock) (h : st.isValidBlock C b = false) :
    st.proposeNewBlock C b = (st, .error "Invalid Argument: block is not valid") := by
  simp [Blockchain.proposeNewBlock, h]

/-- C9 witness: a fresh engine rejects a block with an unknown parent and
is left exactly as constructed. -/
theorem c9_witness :
    Blockchain.new.isValidBlock toyCrypto blkBad = false ∧
    Blockchain.new.proposeNewBlock toyCrypto blkBad =
      (Blockchain.new, .error "Invalid Argument: block is not valid") :=
  ⟨by decide, c9_propose_invalid_leaves_state_untouched toyCrypto Blockchain.new blkBad (by decide)⟩

/-- The toy scheme satisfies the abstract signature round-trip assumption. -/
theorem toyScheme_correct (sk : Nat) (pk : List Nat) (m : List Nat)
    (h : toyScheme.keypair sk pk = true) :
    toyScheme.verify pk m (toyScheme.sign sk m) = true := by
  simp [toyScheme] at h ⊢
  simp [h]

/-- C3 (amended): for a keypair `(sk, pk)` and a transaction built with
`from(t0)` on a prior transaction owned by `pk`, `sign(sk)` succeeds and
`isValidSignature` of the produced *signature* returns true — the previous
owner is read from `_previous`, not passed as the argument. -/
theorem c3_sign_roundtrip_amended (C : Crypto) (sk : Nat) (pk : List Nat)
    (t0 base : Transaction)
    (hcorrect : ∀ sk2 pk2 m, C.scheme.keypair sk2 pk2 = true →
      C.scheme.verify pk2 m (C.scheme.sign sk2 m) = true)
    (hkp : C.scheme.keypair sk pk = true)
    (hown : t0.owner = some pk) :
    ∃ s t2, Transaction.sign C (Transaction.from_ C base (.tx t0)) sk = .ok t2 ∧
      t2.signature = some s ∧
      t2.isValidSignature C (.sig s) = .ok true := by
  cases base with
  | mk v i x y c o sg p =>
    cases t0 with
    | mk v0 i0 x0 y0 c0 o0 sg0 p0 =>
      simp only [Transaction.owner] at hown
      subst hown
      refine ⟨sighashSign C (Transaction.from_ C (Transaction.mk v i x y c o sg p)
          (.tx (Transaction.mk v0 i0 x0 y0 c0 (some pk) sg0 p0))) sk,
        (Transaction.from_ C (Transaction.mk v i x y c o sg p)
          (.tx (Transaction.mk v0 i0 x0 y0 c0 (some pk) sg0 p0))).setSignature
          (some (sighashSign C (Transaction.from_ C (Transaction.mk v i x y c o sg p)
            (.tx (Transaction.mk v0 i0 x0 y0 c0 (some pk) sg0 p0))) sk)), ?_, ?_, ?_⟩ <;>
        simp [Transaction.sign, Transaction.from_, Transaction.setPrevAndPos,
          Transaction.setInput, Transaction.isValidSignature, Transaction.prev,
          Transaction.owner, Transaction.signature, Transaction.setSignature,
          sighashSign, sighashPreimage, hcorrect _ _ _ hkp]

/-- C3 amended witness at the toy crypto adapter and concrete keypair. -/
theorem c3_amended_witness :
    ∃ s t2, Transaction.sign toyCrypto (Transaction.from_ toyCrypto txNew (.tx t0C3)) 7 = .ok t2 ∧
      t2.signature = some s ∧
      t2.isValidSignature toyCrypto (.sig s) = .ok true :=
  c3_sign_roundtrip_amended toyCrypto 7 [7] t0C3 txNew
    (fun sk2 pk2 m h => toyScheme_correct sk2 pk2 m h) (by decide) (by decide)

/-- Once the running height is negative the first locator loop pushes
nothing and leaves the height unchanged. -/
theorem locatorFirst_neg (hbh : List (String × String)) (c : Int) (hc : c < 0) :
    ∀ i, locatorFirst hbh c i = ([], c) := by
  intro i
  induction i with
  | zero => rfl
  | succ n ih => simp [locatorFirst, ih, show ¬ (0 ≤ c) by omega]

/-- Closed form of the first locator loop: it pushes the hashes of the
nonnegative heights `c, c-1, …, c-i+1` and ends at `c - i`, floored at
`-1`. -/
theorem locatorFirst_spec (hbh : List (String × String)) :
    ∀ (i : Nat) (c : Int), 0 ≤ c →
    locatorFirst hbh c i =
      (((List.range i).filterMap
          (fun (t : Nat) => if 0 ≤ c - (t : Int) then some (c - (t : Int)) else none)).map
        (fun h => alookup hbh (toString h)),
       if 0 ≤ c - i then c - i else -1) := by
  intro i
  induction i with
  | zero =>
    intro c hc
    simp [locatorFirst, hc]
  | succ n ih =>
    intro c hc
    rw [locatorFirst]
    simp only [hc, if_true]
    by_cases h1 : 0 ≤ c - 1
    · rw [ih (c - 1) h1]
      rw [List.range_succ_eq_map, List.filterMap_cons, List.filterMap_map]
      have he : ((fun (t : Nat) => if 0 ≤ c - (t : Int) then some (c - (t : Int)) else none) ∘ Nat.succ) =
          (fun (t : Nat) => if 0 ≤ c - 1 - (t : Int) then some (c - 1 - (t : Int)) else none) := by
        funext t
        simp only [Function.comp]
        have h2 : c - ((Nat.succ t : Nat) : Int) = c - 1 - (t : Int) := by
          push_cast
          ring
        rw [h2]
      rw [he]
      have h0 : (if 0 ≤ c - ((0 : Nat) : Int) then some (c - ((0 : Nat) : Int)) else none) = some c := by
        simp [hc]
      simp only [h0, List.map_cons, Prod.mk.injEq]
      refine ⟨trivial, ?_⟩
      push_cast
      split_ifs <;> omega
    · have hc0 : c = 0 := by omega
      subst hc0
      rw [locatorFirst_neg hbh (0 - 1) (by omega) n]
      rw [List.range_succ_eq_map, List.filterMap_cons, List.filterMap_map]
      have he : ∀ t ∈ List.range n,
          ((fun (t : Nat) => if 0 ≤ (0 : Int) - (t : Int) then some ((0 : Int) - (t : Int)) else none) ∘ Nat.succ) t = none := by
        intro t _
        simp only [Function.comp]
        split_ifs with hcond
        · exfalso
          push_cast at hcond
          omega
        · rfl
      rw [List.filterMap_eq_nil_iff.mpr he]
      have hn2 : ¬ (0 ≤ (0 : Int) - ((n + 1 : Nat) : Int)) := by
        push_cast
        omega
      simp [hn2]
      split_ifs with h4
      · omega
      · rfl

/-- Entries of `filterMap` over `range` beyond a point where the function
is constantly `none` do not matter. -/
theorem filterMap_range_shrink {α : Type} (f : Nat → Option α) (m : Nat) :
    ∀ (n : Nat), m ≤ n → (∀ j, m ≤ j → f j = none) →
    (List.range n).filterMap f = (List.range m).filterMap f := by
  intro n
  induction n with
  | zero =>
    intro hmn _
    have h0 : m = 0 := by omega
    simp [h0]
  | succ t ih =>
    intro hmn hf
    by_cases h : m = t + 1
    · simp [h]
    · have hmt : m ≤ t := by omega
      rw [List.range_succ, List.filterMap_append, ih hmt hf]
      simp [hf t hmt]

/-- Closed form of the exponential-backoff locator loop: with backoff value
`k + 1`, iteration `j` visits height `c - (k+1)(2^j - 1)`, for as long as
that height is strictly positive. -/
theorem locatorLoop_spec (hbh : List (String × String)) :
    ∀ (n : Nat) (c : Int) (k : Nat), c.toNat ≤ n →
    locatorLoop hbh c k =
      ((List.range c.toNat).filterMap
        (fun (j : Nat) => if 0 < c - ((k : Int) + 1) * ((2 : Int) ^ j - 1)
          then some (c - ((k : Int) + 1) * ((2 : Int) ^ j - 1)) else none)).map
        (fun h => alookup hbh (toString h)) := by
  intro n
  induction n with
  | zero =>
    intro c k hn
    rw [locatorLoop]
    have hc : ¬ (0 < c) := by omega
    simp [hc, show c.toNat = 0 by omega]
  | succ m ih =>
    intro c k hn
    rw [locatorLoop]
    by_cases hc : 0 < c
    · simp only [hc, dif_pos]
      have hnext : (c - ((k : Nat) + 1)).toNat ≤ m := by omega
      rw [ih (c - ((k : Nat) + 1)) (2 * k + 1) hnext]
      obtain ⟨t, ht⟩ : ∃ t, c.toNat = t + 1 := ⟨c.toNat - 1, by omega⟩
      rw [ht, List.range_succ_eq_map, List.filterMap_cons, List.filterMap_map]
      have h0 : (if 0 < c - ((k : Int) + 1) * ((2 : Int) ^ (0 : Nat) - 1)
          then some (c - ((k : Int) + 1) * ((2 : Int) ^ (0 : Nat) - 1)) else none) = some c := by
        simp [hc]
      have harg : ∀ j : Nat, c - ((k : Int) + 1) * ((2 : Int) ^ (Nat.succ j) - 1) =
          (c - ((k : Nat) + 1)) - (((2 * k + 1 : Nat) : Int) + 1) * ((2 : Int) ^ j - 1) := by
        intro j
        push_cast
        rw [pow_succ]
        ring
      have he : ((fun (j : Nat) => if 0 < c - ((k : Int) + 1) * ((2 : Int) ^ j - 1)
            then some (c - ((k : Int) + 1) * ((2 : Int) ^ j - 1)) else none) ∘ Nat.succ) =
          (fun (j : Nat) => if 0 < (c - ((k : Nat) + 1)) - (((2 * k + 1 : Nat) : Int) + 1) * ((2 : Int) ^ j - 1)
            then some ((c - ((k : Nat) + 1)) - (((2 * k + 1 : Nat) : Int) + 1) * ((2 : Int) ^ j - 1)) else none) := by
        funext j
        simp only [Function.comp]
        rw [harg j]
      rw [he]
      have hshrink : (List.range t).filterMap
            (fun (j : Nat) => if 0 < (c - ((k : Nat) + 1)) - (((2 * k + 1 : Nat) : Int) + 1) * ((2 : Int) ^ j - 1)
              then some ((c - ((k : Nat) + 1)) - (((2 * k + 1 : Nat) : Int) + 1) * ((2 : Int) ^ j - 1)) else none) =
          (List.range (c - ((k : Nat) + 1)).toNat).filterMap
            (fun (j : Nat) => if 0 < (c - ((k : Nat) + 1)) - (((2 * k + 1 : Nat) : Int) + 1) * ((2 : Int) ^ j - 1)
              then some ((c - ((k : Nat) + 1)) - (((2 * k + 1 : Nat) : Int) + 1) * ((2 : Int) ^ j - 1)) else none) := by
        apply filterMap_range_shrink
        · omega
        · intro j hj
          have h2j : (j : Int) < (2 : Int) ^ j := by exact_mod_cast Nat.lt_two_pow j
          have hj0 : (0 : Int) ≤ (j : Int) := Int.natCast_nonneg j
          have hnn : (0 : Int) ≤ (2 : Int) ^ j - 1 := by linarith
          have hK : (1 : Int) ≤ ((2 * k + 1 : Nat) : Int) + 1 := by
            push_cast
            omega
          have hprod : (2 : Int) ^ j - 1 ≤ (((2 * k + 1 : Nat) : Int) + 1) * ((2 : Int) ^ j - 1) :=
            le_mul_of_one_le_left hnn hK
          have hj2 : c - ((k : Nat) + 1) ≤ (j : Int) := by omega
          rw [if_neg]
          linarith
      rw [hshrink, h0, List.map_cons]
    · simp only [hc, dif_neg, not_false_iff]
      simp [show c.toNat = 0 by omega]

/-- C6 (amended): with a defined tip at height `H ≥ 0`, `getBlockLocator`
returns the hashes of the nonnegative heights `H … H-9`, followed by the
strictly positive heights `H - 9 - 2^j` for `j = 0, 1, 2, …` — emitted gaps
1, 1, 2, 4, 8, …, with height 0 never emitted by the backoff phase. -/
theorem c6_locator_amended (st : Blockchain) (H : Int)
    (h1 : ¬ st.tip = "") (h2 : alookup st.height st.tip = some (some H)) (h3 : 0 ≤ H) :
    st.getBlockLocator =
      .ok ((locatorHeightsAmended H).map (fun i => alookup st.hashByHeight (toString i))) := by
  rw [Blockchain.getBlockLocator, if_neg h1, h2]
  simp only [locatorHeightsAmended, List.map_append]
  rw [locatorFirst_spec st.hashByHeight 10 H h3]
  simp only [Nat.cast_ofNat]
  by_cases hH : 0 ≤ H - 10
  · rw [if_pos hH]
    rw [locatorLoop_spec st.hashByHeight (H - 10).toNat (H - 10) 0 (le_refl _)]
    have he : (fun (j : Nat) => if 0 < H - 10 - (((0 : Nat) : Int) + 1) * ((2 : Int) ^ j - 1)
          then some (H - 10 - (((0 : Nat) : Int) + 1) * ((2 : Int) ^ j - 1)) else none) =
        (fun (j : Nat) => if 0 < H - 9 - (2 : Int) ^ j
          then some (H - 9 - (2 : Int) ^ j) else none) := by
      funext j
      have harg : H - 10 - (((0 : Nat) : Int) + 1) * ((2 : Int) ^ j - 1) = H - 9 - (2 : Int) ^ j := by
        push_cast
        ring
      rw [harg]
    rw [he]
    have hshrink : (List.range (H - 9).toNat).filterMap
          (fun (j : Nat) => if 0 < H - 9 - (2 : Int) ^ j
            then some (H - 9 - (2 : Int) ^ j) else none) =
        (List.range (H - 10).toNat).filterMap
          (fun (j : Nat) => if 0 < H - 9 - (2 : Int) ^ j
            then some (H - 9 - (2 : Int) ^ j) else none) := by
      apply filterMap_range_shrink _ _ _ (by omega)
      intro j hj
      have h2j : (j : Int) < (2 : Int) ^ j := by exact_mod_cast Nat.lt_two_pow j
      have hj2 : H - 10 ≤ (j : Int) := by omega
      rw [if_neg]
      linarith
    rw [hshrink]
  · rw [if_neg hH]
    rw [locatorLoop_spec st.hashByHeight 0 (-1) 0 (by omega)]
    have hz : ((-1 : Int)).toNat = 0 := by omega
    have hz2 : (H - 9).toNat = 0 := by omega
    simp [hz, hz2]

/-- C6 amended witness: the closed-form locator at the concrete height-13
state. -/
theorem c6_amended_witness :
    stC6.getBlockLocator =
      .ok ((locatorHeightsAmended 13).map (fun i => alookup stC6.hashByHeight (toString i))) :=
  c6_locator_amended stC6 13 (by decide) (by decide) (by decide)

/-- C6 (counterexample): at the height-13 state the locator's 12th entry is
the hash at height 2 (gap 1 after height 3), not the hash at height 1 that
gaps of exactly 1, 2, 4, … after the ten most recent heights would give;
the emitted list therefore differs from the claim's. -/
theorem c6_claimed_locator_refuted :
    stC6.getBlockLocator ≠
      .ok ((claimLocatorHeights 13).map (fun i => alookup stC6.hashByHeight (toString i))) := by
  simp [Blockchain.getBlockLocator, locatorFirst, locatorLoop, claimLocatorHeights,
    stC6, alookup, List.range_succ]
  decide

/-- One reduction level of `n` nodes has `⌈n/2⌉` parents. -/
theorem merkleStep_length (dh : List Nat → List Nat) (l : List (List Nat)) :
    (merkleStep dh l).length = (l.length + 1) / 2 := by
  induction l using merkleStep.induct dh <;> simp_all [merkleStep]
  omega

/-- The inner Merkle loop appends exactly one reduction level: if the flat
tree holds the current level at offset `j + i`, running the loop from `i`
appends `merkleStep` of that level. -/
theorem merkleInner_spec (dh : List Nat → List Nat) :
    ∀ (rest tree : List (List Nat)) (j i : Nat),
    (∀ m (hm : m < rest.length), tree[j + i + m]? = some (rest[m])) →
    merkleInner dh tree j (i + rest.length) i = tree ++ merkleStep dh rest := by
  intro rest
  induction rest using merkleStep.induct dh with
  | case1 =>
    intro tree j i hread
    rw [merkleInner]
    simp [merkleStep]
  | case2 a =>
    intro tree j i hread
    have hra : tree[j + i]? = some a := by
      have := hread 0 (by simp)
      simpa using this
    rw [merkleInner]
    have hi : i < i + [a].length := by simp
    rw [dif_pos hi]
    have hmin : min (i + 1) (i + [a].length - 1) = i := by simp
    rw [hmin, hra]
    rw [merkleInner]
    have hi2 : ¬ (i + 2 < i + [a].length) := by simp
    rw [dif_neg hi2]
    simp [merkleStep]
  | case3 a b rest ih =>
    intro tree j i hread
    have hra : tree[j + i]? = some a := by
      have := hread 0 (by simp)
      simpa using this
    have hrb : tree[j + (i + 1)]? = some b := by
      have h := hread 1 (by simp)
      have hidx : j + (i + 1) = j + i + 1 := by omega
      rw [hidx]
      simpa using h
    rw [merkleInner]
    have hsz : (a :: b :: rest).length = rest.length + 2 := by simp
    have hi : i < i + (a :: b :: rest).length := by simp
    rw [dif_pos hi]
    have hmin : min (i + 1) (i + (a :: b :: rest).length - 1) = i + 1 := by
      simp only [List.length_cons]
      omega
    rw [hmin, hra, hrb]
    simp only [Option.getD_some]
    have hlen : tree.length ≤ (tree ++ [dh (a ++ b)]).length := by simp
    have hsize : i + (a :: b :: rest).length = (i + 2) + rest.length := by
      simp
      omega
    rw [hsize]
    rw [ih (tree ++ [dh (a ++ b)]) j (i + 2) ?_]
    · simp [merkleStep]
    · intro m hm
      have hidx : j + (i + 2) + m = j + i + (m + 2) := by omega
      rw [hidx]
      have horig := hread (m + 2) (by simp; omega)
      have hlt : j + i + (m + 2) < tree.length := by
        have := List.getElem?_eq_some.mp horig
        obtain ⟨h, _⟩ := this
        exact h
      rw [List.getElem?_append_left hlt]
      rw [horig]
      simp

/-- The outer Merkle loop, started on a nonempty level appended after a
prefix, ends with the claim's iterated reduction of that level as its last
node. -/
theorem merkleOuter_spec (dh : List Nat → List Nat) :
    ∀ (n : Nat) (level pre : List (List Nat)), level ≠ [] → level.length ≤ n →
    ((merkleOuter dh (pre ++ level) pre.length level.length).getLast?).getD [] =
      reduceRoot dh level := by
  intro n
  induction n with
  | zero =>
    intro level pre hne hlen
    exfalso
    have : 0 < level.length := List.length_pos.mpr hne
    omega
  | succ m ih =>
    intro level pre hne hlen
    rw [merkleOuter]
    by_cases hgt : 1 < level.length
    · rw [dif_pos hgt]
      have hread : ∀ k (hk : k < level.length),
          (pre ++ level)[pre.length + 0 + k]? = some (level[k]) := by
        intro k hk
        have h1 : pre.length ≤ pre.length + 0 + k := by omega
        rw [List.getElem?_append_right h1]
        have h2 : pre.length + 0 + k - pre.length = k := by omega
        rw [h2]
        exact List.getElem?_eq_getElem hk
      have hin := merkleInner_spec dh level (pre ++ level) pre.length 0 hread
      rw [Nat.zero_add] at hin
      rw [hin]
      have hpre2 : (pre ++ level).length = pre.length + level.length := by simp
      rw [← hpre2]
      have hstep : (level.length + 1) / 2 = (merkleStep dh level).length :=
        (merkleStep_length dh level).symm
      rw [hstep]
      have hne2 : merkleStep dh level ≠ [] := by
        have hp : 0 < (merkleStep dh level).length := by
          rw [merkleStep_length]
          omega
        exact List.ne_nil_of_length_pos hp
      have hlen2 : (merkleStep dh level).length ≤ m := by
        rw [merkleStep_length]
        omega
      have hres := ih (merkleStep dh level) (pre ++ level) hne2 hlen2
      rw [hres]
      obtain ⟨a, b, rest2, hlv⟩ : ∃ a b rest2, level = a :: b :: rest2 := by
        match level, hgt with
        | a :: b :: r, _ => exact ⟨a, b, r, rfl⟩
      subst hlv
      conv_rhs => rw [reduceRoot]
    · rw [dif_neg hgt]
      have h1 : level.length = 1 := by
        have : 0 < level.length := List.length_pos.mpr hne
        omega
      match level, h1 with
      | [a], _ =>
        rw [List.getLast?_concat]
        rw [reduceRoot]
        rfl

/-- C7: `getMerkleRoot` computes exactly the Merkle root the claim
describes — the all-zero hash on an empty transaction list, otherwise the
iterated level reduction (odd tails duplicated, root the last node
produced), for every double-hash function and transaction list. -/
theorem c7_merkle_root_matches_claim (dh : List Nat → List Nat) (txs : List Transaction) :
    getMerkleRoot dh txs = merkleRootClaim dh txs := by
  cases htxs : txs.isEmpty with
  | true =>
    have h0 : txs = [] := List.isEmpty_iff.mp htxs
    subst h0
    rw [getMerkleRoot, getMerkleTree, getTransactionHashes]
    simp only [List.isEmpty_nil, if_true]
    rw [merkleOuter]
    simp [merkleRootClaim, NULL32]
  | false =>
    have h0 : txs ≠ [] := by
      intro h
      subst h
      simp at htxs
    rw [getMerkleRoot, getMerkleTree, getTransactionHashes]
    simp only [htxs]
    rw [if_neg (by simp [htxs])]
    have hmap : (txs.map (fun t => dh t.toBuffer)) ≠ [] := by
      simp [h0]
    have hlen : txs.length = (txs.map (fun t => dh t.toBuffer)).length := by simp
    have := merkleOuter_spec dh (txs.map (fun t => dh t.toBuffer)).length
      (txs.map (fun t => dh t.toBuffer)) [] hmap (le_refl _)
    simp only [List.nil_append, List.length_nil] at this
    rw [hlen, this]
    rw [merkleRootClaim]
    simp [htxs]

/-- Reading back one written byte. -/
theorem readUInt8_append (n : Nat) (h : n < 256) :
    ∀ r, readUInt8 (writeUInt8 n ++ r) = .ok (n, r) := by
  intro r
  simp [writeUInt8, readUInt8, Nat.mod_eq_of_lt h]

/-- Reading back a fixed-length byte run. -/
theorem readBytes_exact (n : Nat) (l : List Nat) (h : l.length = n) :
    ∀ r, readBytes n (l ++ r) = .ok (l, r) := by
  intro r
  subst h
  simp [readBytes, List.take_left, List.drop_left]

/-- Reading a fixed-length byte run that ends the input. -/
theorem readBytes_all (n : Nat) (l : List Nat) (h : l.length = n) :
    readBytes n l = .ok (l, []) := by
  subst h
  simp [readBytes]

/-- Reading back a written little-endian u32. -/
theorem readUInt32LE_append (n : Nat) (h : n < 4294967296) :
    ∀ r, readUInt32LE (writeUInt32LE n ++ r) = .ok (n, r) := by
  intro r
  simp only [writeUInt32LE, List.cons_append, List.nil_append, readUInt32LE,
    Except.ok.injEq, Prod.mk.injEq]
  refine ⟨?_, trivial⟩
  omega

/-- Reading back a written little-endian i32 for any in-range value. -/
theorem readInt32LE_append (x : Int) (h1 : -2147483648 ≤ x) (h2 : x < 2147483648) :
    ∀ r, readInt32LE (writeInt32LE x ++ r) = .ok (x, r) := by
  intro r
  have hlt : (x % 4294967296).toNat < 4294967296 := by omega
  rw [writeInt32LE, readInt32LE, readUInt32LE_append (x % 4294967296).toNat hlt r]
  simp only [Except.ok.injEq, Prod.mk.injEq]
  refine ⟨?_, trivial⟩
  split_ifs with hc <;> omega

/-- A written byte followed by anything is never empty input. -/
theorem writeUInt8_append_ne_nil (n : Nat) (r : List Nat) :
    (writeUInt8 n ++ r).isEmpty = false := rfl

/-- C8: decoding the serialization of a valid transaction (owner present,
in-range fields, signature present or absent) succeeds, consumes all the
bytes, and re-serializes byte-for-byte. -/
theorem c8_tx_codec_roundtrip (t : Transaction) (pk : List Nat)
    (hver : t.version < 256)
    (hinp : t.input.bytes.length = 32)
    (hx1 : -2147483648 ≤ t.x) (hx2 : t.x < 2147483648)
    (hy1 : -2147483648 ≤ t.y) (hy2 : t.y < 2147483648)
    (hcol : t.color < 4294967296)
    (hown : t.owner = some pk) (hpk : pk.length = 33)
    (hsig : ∀ s, t.signature = some s → s.length < 256) :
    ∃ t2, Transaction.fromBufferReader t.toBuffer = .ok (t2, []) ∧
      Transaction.toBuffer t2 = Transaction.toBuffer t := by
  cases t with
  | mk v i x y c o sg p =>
    simp only [Transaction.version, Transaction.input, Transaction.x, Transaction.y,
      Transaction.color, Transaction.owner, Transaction.signature]
      at hver hinp hx1 hx2 hy1 hy2 hcol hown hsig
    subst hown
    cases sg with
    | none =>
      refine ⟨Transaction.mk v (.fresh i.bytes) x y c (some pk) none none, ?_, ?_⟩
      · rw [Transaction.fromBufferReader]
        simp only [Transaction.toBuffer, Transaction.version, Transaction.input,
          Transaction.x, Transaction.y, Transaction.color, Transaction.owner,
          Transaction.signature, List.append_assoc, writeUInt8_append_ne_nil,
          Bool.false_eq_true, if_false, readUInt8_append v hver,
          readBytes_exact 32 i.bytes hinp, readInt32LE_append x hx1 hx2,
          readInt32LE_append y hy1 hy2, readUInt32LE_append c hcol,
          publicKeyFromBufferReader, readBytes_exact 33 pk hpk,
          show readUInt8 (writeUInt8 0) = .ok (0, []) from rfl,
          ne_eq, not_true_eq_false]
      · simp [Transaction.toBuffer, Transaction.version, Transaction.input,
          Transaction.x, Transaction.y, Transaction.color, Transaction.owner,
          Transaction.signature, JSBuffer.bytes]
    | some s =>
      have hslen : s.length < 256 := hsig s rfl
      by_cases hs0 : s.length = 0
      · have hs : s = [] := List.length_eq_zero.mp hs0
        subst hs
        refine ⟨Transaction.mk v (.fresh i.bytes) x y c (some pk) none none, ?_, ?_⟩
        · rw [Transaction.fromBufferReader]
          simp only [Transaction.toBuffer, Transaction.version, Transaction.input,
            Transaction.x, Transaction.y, Transaction.color, Transaction.owner,
            Transaction.signature, List.append_assoc, List.append_nil,
            writeUInt8_append_ne_nil, Bool.false_eq_true, if_false,
            readUInt8_append v hver, readBytes_exact 32 i.bytes hinp,
            readInt32LE_append x hx1 hx2, readInt32LE_append y hy1 hy2,
            readUInt32LE_append c hcol, publicKeyFromBufferReader,
            readBytes_exact 33 pk hpk,
            show readUInt8 (writeUInt8 0) = .ok (0, []) from rfl,
            ne_eq, not_true_eq_false, List.length_nil]
        · simp [Transaction.toBuffer, Transaction.version, Transaction.input,
            Transaction.x, Transaction.y, Transaction.color, Transaction.owner,
            Transaction.signature, JSBuffer.bytes]
      · refine ⟨Transaction.mk v (.fresh i.bytes) x y c (some pk) (some s) none, ?_, ?_⟩
        · rw [Transaction.fromBufferReader]
          simp only [Transaction.toBuffer, Transaction.version, Transaction.input,
            Transaction.x, Transaction.y, Transaction.color, Transaction.owner,
            Transaction.signature, List.append_assoc,
            writeUInt8_append_ne_nil, Bool.false_eq_true, if_false,
            readUInt8_append v hver, readBytes_exact 32 i.bytes hinp,
            readInt32LE_append x hx1 hx2, readInt32LE_append y hy1 hy2,
            readUInt32LE_append c hcol, publicKeyFromBufferReader,
            readBytes_exact 33 pk hpk, readUInt8_append s.length hslen,
            readBytes_all s.length s rfl, ne_eq, hs0, not_false_eq_true, if_true]
        · simp [Transaction.toBuffer, Transaction.version, Transaction.input,
            Transaction.x, Transaction.y, Transaction.color, Transaction.owner,
            Transaction.signature, JSBuffer.bytes]

/-- C8 witness: the round trip evaluated at a concrete signed transaction. -/
theorem c8_witness :
    ∃ t2, Transaction.fromBufferReader tC8.toBuffer = .ok (t2, []) ∧
      Transaction.toBuffer t2 = Transaction.toBuffer tC8 :=
  c8_tx_codec_roundtrip tC8 pkG (by decide) (by decide) (by decide) (by decide)
    (by decide) (by decide) (by decide) (by decide) (by decide)
    (by
      intro s hs
      simp only [tC8, Transaction.signature, Option.some.injEq] at hs
      subst hs
      decide)
